import Mathlib

/-!
Verification of the Job Execution Orchestrator of the ai-threat-modeler
backend (`src/backend/src/routes/threatModeling.ts` and
`src/backend/src/models/threatModelingJob.ts`), as a shallow embedding.

Strings are modelled by Lean `String`; the JavaScript string primitives used
by the code (`split`, `startsWith`, `endsWith`, `includes`, `toLowerCase`,
per-character `replace`) are embedded as structurally recursive functions on
the underlying character lists, so that all definitions evaluate by `decide`.
-/

/-- Model of JavaScript `String.prototype.startsWith` at the character-list
level: `listStarts pat l` is true when `pat` is an initial run of `l`. -/
def listStarts : List Char → List Char → Bool
  | [], _ => true
  | _ :: _, [] => false
  | a :: as, b :: bs => a == b && listStarts as bs

/-- Model of `s.startsWith(pre)`. -/
def strStarts (s pre : String) : Bool :=
  listStarts pre.data s.data

/-- Model of `s.endsWith(suf)`. -/
def strEnds (s suf : String) : Bool :=
  listStarts suf.data.reverse s.data.reverse

/-- Model of JavaScript `String.prototype.split` with a one-character
separator, on character lists.  `"".split(sep)` is `[""]`, a trailing
separator yields a trailing empty field, as in JavaScript. -/
def splitOnCharList (sep : Char) : List Char → List (List Char)
  | [] => [[]]
  | c :: cs =>
    match splitOnCharList sep cs with
    | [] => [[c]]
    | h :: t => if c == sep then [] :: h :: t else (c :: h) :: t

/-- Model of `s.split(sep)` for a one-character separator. -/
def strSplitOnChar (sep : Char) (s : String) : List String :=
  (splitOnCharList sep s.data).map String.mk

/-- Model of `s.toLowerCase()` (character-wise lowering). -/
def jsToLower (s : String) : String :=
  String.mk (s.data.map Char.toLower)

/-- `pat` occurs contiguously inside `l`, at the character-list level. -/
def listContains (l pat : List Char) : Bool :=
  match l with
  | [] => pat.isEmpty
  | _ :: t => listStarts pat l || listContains t pat

/-- Model of `s.includes(pat)`: `pat` occurs contiguously inside `s`. -/
def jsIncludes (s pat : String) : Bool :=
  listContains s.data pat.data

/-- `pat` occurs contiguously inside `s`, as a proposition. -/
def strContains (s pat : String) : Prop :=
  ∃ u v, u ++ pat.data ++ v = s.data

/-- The character class kept by the sanitizer regex `[^a-zA-Z0-9._-]` in
`processThreatModelingJob`: ASCII letters, digits, `.`, `_`, `-`. -/
def allowedChar (c : Char) : Bool :=
  (c ≥ 'a' && c ≤ 'z') || (c ≥ 'A' && c ≤ 'Z') || (c ≥ '0' && c ≤ '9') ||
    c == '.' || c == '_' || c == '-'

/-- One step of `repoName.replace(/[^a-zA-Z0-9._-]/g, '_')`: a character
outside the allowed class is replaced by an underscore. -/
def sanitizeChar (c : Char) : Char :=
  if allowedChar c then c else '_'

/-- `threatModeling.ts` lines 377-381: sanitize the candidate repository
name character-wise and fall back to `'repo'` when the result is empty. -/
def sanitizeRepoName (s : String) : String :=
  let t := String.mk (s.data.map sanitizeChar)
  if t.length = 0 then "repo" else t

/-- Node `path.normalize` segment resolution (`normalizeString` in Node's
posix path implementation): empty segments and `.` are dropped; `..` pops
the previous segment when one is available, is kept (for relative paths)
when `allowAbove` is set, and is dropped otherwise.  The accumulator is
kept reversed. -/
def normSegs (allowAbove : Bool) : List String → List String → List String
  | racc, [] => racc.reverse
  | racc, c :: cs =>
    if c = "" || c = "." then normSegs allowAbove racc cs
    else if c = ".." then
      match racc with
      | [] => if allowAbove then normSegs allowAbove [".."] cs else normSegs allowAbove [] cs
      | p :: rest =>
        if p = ".." then
          if allowAbove then normSegs allowAbove (".." :: p :: rest) cs
          else normSegs allowAbove (p :: rest) cs
        else normSegs allowAbove rest cs
    else normSegs allowAbove (c :: racc) cs

/-- Model of Node `path.normalize` for posix paths: resolves `.` and `..`,
collapses repeated separators, preserves a trailing separator, returns `.`
for an empty result on a relative path and `/` on an absolute one. -/
def pathNormalize (p : String) : String :=
  if p.data = [] then "." else
  let isAbs := strStarts p "/"
  let trailing := strEnds p "/"
  let segs := normSegs (!isAbs) [] (strSplitOnChar '/' p)
  if segs.isEmpty then
    if isAbs then "/" else if trailing then "./" else "."
  else
    let body := String.intercalate "/" segs
    (if isAbs then "/" ++ body else body) ++ (if trailing then "/" else "")

/-- Model of Node `path.join` for the two-argument uses in the route file:
concatenate the non-empty parts with a separator and normalize. -/
def pathJoin (a b : String) : String :=
  if a.data = [] && b.data = [] then "."
  else if a.data = [] then pathNormalize b
  else if b.data = [] then pathNormalize a
  else pathNormalize (a ++ "/" ++ b)

/-- `extractZip` per-entry logic (`threatModeling.ts` lines 120-162): a
directory entry (name ending in `/`) is skipped; otherwise the destination
is `path.join(extractTo, entry.fileName)` re-normalized, and the entry is
written there only when that path starts (as a string) with
`path.normalize(extractTo)`; an entry failing the check is skipped and the
loop continues with the next entry. -/
def extractEntry (extractTo : String) (fileName : String) : Option String :=
  if strEnds fileName "/" then none
  else
    let fullPath := pathJoin extractTo fileName
    let normalizedPath := pathNormalize fullPath
    if strStarts normalizedPath (pathNormalize extractTo) then some normalizedPath
    else none

/-- The destination paths written by `extractZip` over a whole entry list:
every entry is processed (a skipped entry never aborts the extraction). -/
def extractZipWrites (extractTo : String) : List String → List String
  | [] => []
  | e :: es =>
    match extractEntry extractTo e with
    | some p => p :: extractZipWrites extractTo es
    | none => extractZipWrites extractTo es

/-- `p` lies inside directory `dir` (both normalized): it is `dir` itself or
has `dir` followed by a separator as a prefix.  This is what "remains inside
the destination directory" means; note it is strictly stronger than the
string-prefix test the code performs. -/
def insideDir (dir p : String) : Bool :=
  p == dir || strStarts p (dir ++ "/")

/-- `threatModeling.ts` line 727: the data-flow keyword family. -/
def isDataFlow (file : String) : Bool :=
  jsIncludes (jsToLower file) "data_flow" || jsIncludes (jsToLower file) "dataflow"

/-- `threatModeling.ts` line 728: the threat-model keyword family. -/
def isThreatModel (file : String) : Bool :=
  jsIncludes (jsToLower file) "threat_model" || jsIncludes (jsToLower file) "threatmodel"

/-- `threatModeling.ts` line 729: the risk-registry keyword family. -/
def isRiskRegistry (file : String) : Bool :=
  jsIncludes (jsToLower file) "risk_registry" || jsIncludes (jsToLower file) "riskregistry"

/-- The harvest scan (`threatModeling.ts` lines 716-737): a regular file is
collected when its lower-cased name matches any of the three keyword
families.  The input list stands for the regular files found directly in
the search directories. -/
def reportFilesOf (files : List String) : List String :=
  files.filter (fun f => isDataFlow f || isThreatModel f || isRiskRegistry f)

/-- One iteration of the report-relocation loop (`threatModeling.ts` lines
774-790): the file is copied to `path.join(jobReportDir, file)` and stored
in exactly one of the three path fields, chosen by the `if`/`else if`
cascade (data-flow first, then threat-model, then risk-registry).  The
accumulator is `(dataFlowDiagramPath, threatModelPath, riskRegistryPath)`. -/
def classifyStep (jobReportDir : String)
    (acc : Option String × Option String × Option String) (file : String) :
    Option String × Option String × Option String :=
  let destPath := pathJoin jobReportDir file
  if isDataFlow file then (some destPath, acc.2.1, acc.2.2)
  else if isThreatModel file then (acc.1, some destPath, acc.2.2)
  else if isRiskRegistry file then (acc.1, acc.2.1, some destPath)
  else acc

/-- The whole relocation loop: fold `classifyStep` over the harvested files
(last match wins within each category). -/
def classifyReports (jobReportDir : String) (files : List String) :
    Option String × Option String × Option String :=
  files.foldl (classifyStep jobReportDir) (none, none, none)

/-- JavaScript `arr.slice(-n)`: the last `n` elements (all of them when the
list is shorter). -/
def takeLast (n : Nat) (l : List String) : List String :=
  l.drop (l.length - n)

/-- The error-line filter (`threatModeling.ts` lines 751-755): a captured
output line is error-looking when its lower-cased text contains `error`,
`failed` or `exceeded`. -/
def errorLineFilter (line : String) : Bool :=
  jsIncludes (jsToLower line) "error" || jsIncludes (jsToLower line) "failed" ||
    jsIncludes (jsToLower line) "exceeded"

/-- The error-looking lines of the captured subprocess output. -/
def errorLinesOf (capturedOutput : String) : List String :=
  (strSplitOnChar '\n' capturedOutput).filter errorLineFilter

/-- The message thrown when the harvest finds zero report files
(`threatModeling.ts` lines 747-762): with a recorded non-zero exit code the
message carries the code and, when error-looking lines were captured, the
last three of them joined with `; `; otherwise the simpler message is
thrown. -/
def noReportsMessage (processExitCode : Option Int) (capturedOutput : String) : String :=
  match processExitCode with
  | some c =>
    if c = 0 then "No threat modeling report files were generated by the agent"
    else if 0 < (errorLinesOf capturedOutput).length then
      "No threat modeling report files were generated. " ++
        ("agent-run exited with code " ++ toString c) ++
        ". Error details: " ++ String.intercalate "; " (takeLast 3 (errorLinesOf capturedOutput))
    else
      "No threat modeling report files were generated. " ++
        ("agent-run exited with code " ++ toString c)
  | none => "No threat modeling report files were generated by the agent"

/-- The part of `processThreatModelingJob` from agent completion to the
`completed` update, as a result value.  `code` is the argument of the
subprocess `close` handler: `none` models a `null` exit status (process
killed by a signal), which rejects; a non-zero code does not reject — the
harvest is still attempted (`threatModeling.ts` lines 562-579).  A
zero-file harvest throws `noReportsMessage`; otherwise, after the
cancellation check, the report paths are persisted. -/
def jobPipeline (aborted : Bool) (code : Option Int) (capturedOutput : String)
    (files : List String) (jobReportDir : String) :
    Except String (Option String × Option String × Option String) :=
  if aborted then Except.error "Job was cancelled"
  else
    match code with
    | none => Except.error "agent-run process terminated by signal: unknown"
    | some c =>
      if files.isEmpty then Except.error (noReportsMessage (some c) capturedOutput)
      else if aborted then Except.error "Job was cancelled"
      else Except.ok (classifyReports jobReportDir files)

/-- The persisted outcome of a job run. -/
inductive JobFinal where
  | completed (paths : Option String × Option String × Option String) : JobFinal
  | failed (msg : String) : JobFinal
  | cancelled : JobFinal
deriving DecidableEq

/-- The outer `catch` of `processThreatModelingJob` applied to the pipeline
result: a successful pipeline persists `completed` with the report paths; a
thrown error persists `failed` with the message unless the abort signal was
already triggered, in which case the record is left to the deletion path. -/
def processJobFinal (aborted : Bool) (code : Option Int) (capturedOutput : String)
    (files : List String) (jobReportDir : String) : JobFinal :=
  match jobPipeline aborted code capturedOutput files jobReportDir with
  | Except.ok paths => JobFinal.completed paths
  | Except.error msg => if aborted then JobFinal.cancelled else JobFinal.failed msg

/-- The job status enum of `threatModelingJob.ts`. -/
inductive JobStatus where
  | pending : JobStatus
  | processing : JobStatus
  | completed : JobStatus
  | failed : JobStatus
deriving DecidableEq

/-- The persisted columns of a `threat_modeling_jobs` row that
`updateStatus` touches.  `completed_at` holds an abstract timestamp. -/
structure JobRecord where
  status : JobStatus
  report_path : Option String
  data_flow_diagram_path : Option String
  threat_model_path : Option String
  risk_registry_path : Option String
  error_message : Option String
  completed_at : Option Nat
deriving DecidableEq

/-- The optional parameters of `ThreatModelingJobModel.updateStatus`:
`none` models a JavaScript `undefined` argument (column untouched), while
`some v` models a passed argument, `v = none` being SQL `NULL`. -/
structure StatusUpdate where
  status : JobStatus
  reportPath : Option (Option String)
  errorMessage : Option (Option String)
  dataFlowDiagramPath : Option (Option String)
  threatModelPath : Option (Option String)
  riskRegistryPath : Option (Option String)

/-- A `StatusUpdate` that passes only the status (all optional parameters
left `undefined`). -/
def mkStatusOnly (st : JobStatus) : StatusUpdate :=
  ⟨st, none, none, none, none, none⟩

/-- `ThreatModelingJobModel.create` (`threatModelingJob.ts` lines 11-28):
a fresh row has status `pending` and every other modelled column `NULL`. -/
def createRecord : JobRecord :=
  ⟨JobStatus.pending, none, none, none, none, none, none⟩

/-- `ThreatModelingJobModel.updateStatus` (`threatModelingJob.ts` lines
62-112): each defined optional parameter overwrites its column, the status
is always overwritten, and `completed_at` is set to the current timestamp
exactly when the new status is `completed` or `failed` (it is never
cleared otherwise). -/
def updateStatus (r : JobRecord) (u : StatusUpdate) (t : Nat) : JobRecord :=
  { status := u.status
    report_path := u.reportPath.getD r.report_path
    data_flow_diagram_path := u.dataFlowDiagramPath.getD r.data_flow_diagram_path
    threat_model_path := u.threatModelPath.getD r.threat_model_path
    risk_registry_path := u.riskRegistryPath.getD r.risk_registry_path
    error_message := u.errorMessage.getD r.error_message
    completed_at :=
      if u.status = JobStatus.completed ∨ u.status = JobStatus.failed then some t
      else r.completed_at }

/-- `ThreatModelingJobModel.updateReports`: `updateStatus` to `completed`
with `report_path := threatModelPath` (backward compatibility),
`error_message := NULL` and the three classified paths. -/
def updateReports (r : JobRecord) (dataFlow threatModel riskRegistry : Option String)
    (t : Nat) : JobRecord :=
  updateStatus r ⟨JobStatus.completed, some threatModel, some none, some dataFlow,
    some threatModel, some riskRegistry⟩ t

/-- `ThreatModelingJobModel.updateErrorMessage`: `updateStatus` to `failed`
with `report_path := NULL` and the error message. -/
def updateErrorMessage (r : JobRecord) (msg : String) (t : Nat) : JobRecord :=
  updateStatus r ⟨JobStatus.failed, some none, some (some msg), none, none, none⟩ t

/-- The status-touching calls the Job Lifecycle Controller
(`processThreatModelingJob`) issues against the persisted record: set
`processing` at the start (line 280), persist reports as `completed`
(line 798), force `completed` (lines 811 and 820), or fail (lines 855-856:
a plain `failed` update followed by `updateErrorMessage`). -/
inductive ControllerOp where
  | setProcessing : ControllerOp
  | reportsCompleted (dataFlow threatModel riskRegistry : Option String) : ControllerOp
  | plainCompleted : ControllerOp
  | plainFailed : ControllerOp
  | failedWithMessage (msg : String) : ControllerOp

/-- Interpretation of one controller call through the model layer. -/
def applyOp (t : Nat) (r : JobRecord) : ControllerOp → JobRecord
  | ControllerOp.setProcessing => updateStatus r (mkStatusOnly JobStatus.processing) t
  | ControllerOp.reportsCompleted d tm rr => updateReports r d tm rr t
  | ControllerOp.plainCompleted => updateStatus r (mkStatusOnly JobStatus.completed) t
  | ControllerOp.plainFailed => updateStatus r (mkStatusOnly JobStatus.failed) t
  | ControllerOp.failedWithMessage msg => updateErrorMessage r msg t

/-- Run a sequence of controller calls, each at a later timestamp. -/
def runOps (t : Nat) (r : JobRecord) : List ControllerOp → JobRecord
  | [] => r
  | op :: rest => runOps (t + 1) (applyOp t r op) rest

/-- Whether a controller call sets a terminal status. -/
def isTerminalOp : ControllerOp → Bool
  | ControllerOp.setProcessing => false
  | _ => true

/-- The call sequences the controller can actually issue for one job: the
single `processing` update happens at the top of the `try` block, before
any terminal update, and once a terminal update has been issued every later
update is terminal (the force-completed and error paths). -/
def traceOK : List ControllerOp → Bool
  | [] => true
  | op :: rest => if isTerminalOp op then rest.all isTerminalOp else traceOK rest

/-- The C8 invariant: `completed_at` is set iff the status is terminal. -/
def recordInv (r : JobRecord) : Prop :=
  r.completed_at.isSome = true ↔ (r.status = JobStatus.completed ∨ r.status = JobStatus.failed)

/-- The `catch` block of `processThreatModelingJob` (`threatModeling.ts`
lines 848-863): when the abort signal already fired the persisted record is
not touched; otherwise it is set to `failed` and the error message is
persisted. -/
def catchHandler (aborted : Bool) (msg : String) (r : JobRecord) (t : Nat) : JobRecord :=
  if aborted then r
  else updateErrorMessage (updateStatus r (mkStatusOnly JobStatus.failed) t) msg t

/-- State of `ChdirMutex` (`threatModeling.ts` lines 35-64), instrumented
for the proof: `locked` and `queue` are the class's two static fields (the
queue holds the waiting acquirers, in arrival order, as the caller ids of
the queued resolver closures); `holders` is the set of callers whose
`acquire()` promise has resolved and whose release callback has not run
yet; `arrivalLog` and `grantLog` record the order of acquire calls and of
lock grants. -/
structure MutexState where
  locked : Bool
  queue : List Nat
  holders : List Nat
  arrivalLog : List Nat
  grantLog : List Nat

/-- The initial mutex state: unlocked, empty queue. -/
def MutexState.init : MutexState :=
  ⟨false, [], [], [], []⟩

/-- The two operations on the mutex: a caller invokes `acquire()`, or a
current holder invokes the release callback handed to it. -/
inductive MutexEvent where
  | acquire (id : Nat) : MutexEvent
  | release (id : Nat) : MutexEvent

/-- One `ChdirMutex` transition.  `acquire` with the lock free sets
`locked` and resolves immediately (the caller becomes a holder); with the
lock taken it pushes the resolver onto the queue.  The release callback
clears `locked` and, when the queue is non-empty, shifts the front resolver
and runs it, which re-sets `locked` and resolves that waiter (the net
effect modelled here). -/
def mstep (s : MutexState) : MutexEvent → MutexState
  | MutexEvent.acquire id =>
    if s.locked then
      { s with queue := s.queue ++ [id], arrivalLog := s.arrivalLog ++ [id] }
    else
      { s with
        locked := true
        holders := s.holders ++ [id]
        arrivalLog := s.arrivalLog ++ [id]
        grantLog := s.grantLog ++ [id] }
  | MutexEvent.release id =>
    match s.queue with
    | [] => { s with locked := false, holders := s.holders.erase id }
    | w :: ws =>
      { s with
        locked := true
        holders := s.holders.erase id ++ [w]
        queue := ws
        grantLog := s.grantLog ++ [w] }

/-- An event is legal in a state when a release callback is only invoked by
a caller currently holding the lock. -/
def mvalid (s : MutexState) : MutexEvent → Bool
  | MutexEvent.acquire _ => true
  | MutexEvent.release id => decide (id ∈ s.holders)

/-- Run a trace of mutex events. -/
def mrun (s : MutexState) : List MutexEvent → MutexState
  | [] => s
  | e :: es => mrun (mstep s e) es

/-- A trace is legal when each event is legal in the state it fires in. -/
def mvalidTrace (s : MutexState) : List MutexEvent → Bool
  | [] => true
  | e :: es => mvalid s e && mvalidTrace (mstep s e) es

/-- The mutex invariant: at most one holder, the lock flag tracks the
holder set, waiters only queue while the lock is held, and the grant log
followed by the pending queue is exactly the arrival log (grants happen in
FIFO arrival order). -/
def mutexInv (s : MutexState) : Prop :=
  s.holders.length ≤ 1
    ∧ (s.locked = false → s.holders = [] ∧ s.queue = [])
    ∧ (s.locked = true → s.holders.length = 1)
    ∧ s.grantLog ++ s.queue = s.arrivalLog

/-- Whether each of the three `finally`-block removals throws, modelling
filesystem failures. -/
structure CleanupFaults where
  workFails : Bool
  zipFails : Bool
  extrFails : Bool

/-- The state the `finally` block of `processThreatModelingJob` acts on:
the `runningJobs` map (as its membership function), existence of the job's
work directory, uploaded ZIP file and extraction directory, and
instrumentation flags recording that a removal was attempted. -/
structure OrchState where
  running : String → Bool
  workDirExists : Bool
  zipExists : Bool
  extractedExists : Bool
  workAttempted : Bool
  zipAttempted : Bool
  extrAttempted : Bool

/-- A filesystem removal call: it either succeeds or throws. -/
def rmAttempt (fails : Bool) : Except String Unit :=
  if fails then Except.error "EACCES" else Except.ok ()

/-- `runningJobs.delete(jobId)` (`threatModeling.ts` line 868). -/
def deleteRunning (jobId : String) (s : OrchState) : OrchState :=
  { s with running := fun k => if k = jobId then false else s.running k }

/-- Lines 873-880: remove the work directory when it exists; a throwing
removal is caught and logged, never re-thrown. -/
def cleanupWork (fails : Bool) (s : OrchState) : OrchState :=
  if s.workDirExists then
    match rmAttempt fails with
    | Except.ok _ => { s with workAttempted := true, workDirExists := false }
    | Except.error _ => { s with workAttempted := true }
  else s

/-- Lines 883-890: remove the uploaded ZIP when the parameter was passed
and the file exists; failures are swallowed. -/
def cleanupZip (zipPath : Option String) (fails : Bool) (s : OrchState) : OrchState :=
  if zipPath.isSome && s.zipExists then
    match rmAttempt fails with
    | Except.ok _ => { s with zipAttempted := true, zipExists := false }
    | Except.error _ => { s with zipAttempted := true }
  else s

/-- Lines 893-900: remove the extraction directory when the parameter was
passed and the directory exists; failures are swallowed. -/
def cleanupExtracted (extrPath : Option String) (fails : Bool) (s : OrchState) : OrchState :=
  if extrPath.isSome && s.extractedExists then
    match rmAttempt fails with
    | Except.ok _ => { s with extrAttempted := true, extractedExists := false }
    | Except.error _ => { s with extrAttempted := true }
  else s

/-- The whole `finally` block (`threatModeling.ts` lines 866-902). -/
def finallyPhase (jobId : String) (zipPath extrPath : Option String)
    (f : CleanupFaults) (s : OrchState) : OrchState :=
  cleanupExtracted extrPath f.extrFails
    (cleanupZip zipPath f.zipFails
      (cleanupWork f.workFails (deleteRunning jobId s)))

/-- `processThreatModelingJob` after the `catch` block: whatever the body
produced (normal completion, a thrown error, or a cancellation error), the
`finally` phase runs on the state, and the body's outcome is passed through
unchanged — cleanup failures never replace it. -/
def runWithFinally (jobId : String) (zipPath extrPath : Option String)
    (f : CleanupFaults) (body : Except String Unit) (s : OrchState) :
    Except String Unit × OrchState :=
  (body, finallyPhase jobId zipPath extrPath f s)

/-- A concrete orchestrator state used to exercise the cleanup phase: job
`j1` is tracked and all three resources exist on disk. -/
def sampleOrchState : OrchState :=
  ⟨fun k => k == "j1", true, true, true, false, false, false⟩

/-- `zipFileName.replace(/\.zip$/i, '')`: strip one case-insensitive
`.zip` suffix. -/
def stripZipExt (name : String) : String :=
  if strEnds (jsToLower name) ".zip" then String.mk (name.data.take (name.data.length - 4))
  else name

/-- JavaScript truthiness for the nullable strings of this code path: the
empty string and `null`/`undefined` are both falsy. -/
def jsStr : Option String → Option String
  | some s => if s.data = [] then none else some s
  | none => none

/-- The name-selection part of `detectRepoMetadata` (`threatModeling.ts`
lines 182-208): use the ZIP filename without its extension when truthy,
else the `package.json` `name` when the manifest is present with a truthy
name, else the directory's basename.  `pkgName` stands for the parsed
manifest name, `dirBasename` for `path.basename(repoDir)`. -/
def detectRepoNameFrom (zipFileName pkgName : Option String) (dirBasename : String) : String :=
  match jsStr ((jsStr zipFileName).map stripZipExt) with
  | some n => n
  | none =>
    match jsStr pkgName with
    | some n => n
    | none => dirBasename

/-- The repository-subdirectory name computed by `processThreatModelingJob`
(`threatModeling.ts` lines 346-381).  `uploaded` is the truthiness of
`uploadedZipPath && extractedDir`, `extractedExists` that of
`fs.existsSync(extractedPath)`, `contents` the listed `(name, isDirectory)`
entries of the extraction directory.  When the extraction dir holds exactly
one entry and it is a directory, that name is taken; else the
`detectRepoMetadata` chain runs; a still-falsy result falls back to the
stripped ZIP filename and then to `'repo'`; sanitization always follows. -/
def chooseRepoName (uploaded extractedExists : Bool) (contents : List (String × Bool))
    (pkgName : Option String) (extractedBasename : String)
    (zipFileName : Option String) : String :=
  let detected : Option String :=
    if uploaded && extractedExists then
      match contents with
      | [(name, true)] => some name
      | _ => some (detectRepoNameFrom zipFileName pkgName extractedBasename)
    else none
  let chosen : String :=
    match jsStr detected with
    | some n => n
    | none =>
      match jsStr zipFileName with
      | some z => stripZipExt z
      | none => "repo"
  sanitizeRepoName chosen

/-- The priority order asserted by the specification sentence behind claim
C7, written exactly as claimed: archive filename first, else manifest name,
else extraction-directory name, else the fallback token. -/
def claimedRepoNameC7 (zipFileName pkgName extractedBasename : Option String) : String :=
  sanitizeRepoName
    (match zipFileName with
    | some z => stripZipExt z
    | none =>
      match pkgName with
      | some n => n
      | none =>
        match extractedBasename with
        | some b => b
        | none => "repo")

/-- The claimed fallback chain of C7 as it applies to an upload: archive
filename with extension stripped, else manifest name, else the extraction
directory's basename. -/
def claimedDetectChain (zipFileName pkgName : Option String) (basename : String) : String :=
  match zipFileName with
  | some z => stripZipExt z
  | none =>
    match pkgName with
    | some n => n
    | none => basename

/-- The amended priority order (what the code actually implements): the
single top-level directory of the extraction comes first; for uploads the
`detectRepoMetadata` chain (archive filename, else manifest name, else
extraction-directory basename) follows; without an upload the archive
filename is used, else the fallback token; sanitization closes. -/
def repoNamePriorityAmended (uploaded extractedExists : Bool)
    (contents : List (String × Bool)) (pkgName : Option String)
    (extractedBasename : String) (zipFileName : Option String) : String :=
  sanitizeRepoName
    (if uploaded && extractedExists then
      match contents with
      | [(name, true)] => name
      | _ => claimedDetectChain zipFileName pkgName extractedBasename
    else
      match zipFileName with
      | some z => stripZipExt z
      | none => "repo")

-- ## Theorems

theorem allowedChar_sanitizeChar (c : Char) : allowedChar (sanitizeChar c) = true := by
  unfold sanitizeChar
  by_cases h : allowedChar c
  · simp [h]
  · simp [h]
    decide

/-- Claim C9: for every candidate repository-name string, the sanitized
workspace directory name contains only characters from `[A-Za-z0-9._-]`
(every other character having been replaced) and is non-empty, defaulting
to `'repo'` when sanitization yields the empty string. -/
theorem spec_c9 (s : String) :
    0 < (sanitizeRepoName s).length ∧ (sanitizeRepoName s).data.all allowedChar = true := by
  unfold sanitizeRepoName
  by_cases h : s.data = []
  · rw [h]
    decide
  · have hlen : (String.mk (s.data.map sanitizeChar)).length = s.data.length := by
      show (s.data.map sanitizeChar).length = s.data.length
      exact List.length_map _ _
    have hne0 : s.data.length ≠ 0 := fun hl => h (List.length_eq_zero.mp hl)
    have hne : ¬ (String.mk (s.data.map sanitizeChar)).length = 0 := by
      rw [hlen]
      exact hne0
    simp only [hne, if_false]
    constructor
    · rw [hlen]
      exact Nat.pos_of_ne_zero hne0
    · show (s.data.map sanitizeChar).all allowedChar = true
      rw [List.all_map]
      rw [List.all_eq_true]
      intro c _
      exact allowedChar_sanitizeChar c

/-- Claim C4: the extraction guard is a plain string-prefix test, so it does
not coincide with "remains inside the destination directory".  At the
concrete input below, the entry `../extractX/pwn` escapes the destination
`/data/extract` (it lands in the sibling directory `/data/extractX`), yet
`extractZip` writes it, because `/data/extractX/pwn` starts with the string
`/data/extract`.  The same run shows the claim's true parts: the traversal
entry `../../etc/passwd` is skipped without aborting, the directory entry
is skipped, and the in-bounds entry is extracted. -/
theorem spec_c4_bug_evidence :
    extractZipWrites "/data/extract" ["../extractX/pwn", "../../etc/passwd", "docs/", "src/main.ts"]
        = ["/data/extractX/pwn", "/data/extract/src/main.ts"]
      ∧ insideDir "/data/extract" "/data/extractX/pwn" = false
      ∧ insideDir "/data/extract" "/data/extract/src/main.ts" = true := by
  refine ⟨?_, ?_, ?_⟩ <;> decide

/-- Claim C2: when the agent subprocess exits with a non-zero exit code the
job is not immediately failed — the `close` handler resolves, the harvest
runs, and when at least one report file is found the job is persisted as
`completed` with the classified report paths, not as `failed`. -/
theorem spec_c2 (c : Int) (capturedOutput : String) (files : List String)
    (jobReportDir : String) (_hc : ¬ c = 0) (hf : files ≠ []) :
    processJobFinal false (some c) capturedOutput files jobReportDir
      = JobFinal.completed (classifyReports jobReportDir files) := by
  cases files with
  | nil => exact absurd rfl hf
  | cons a t => simp [processJobFinal, jobPipeline]

/-- Witness for C2 at the spec's own scenario: exit code 1 with a written
`threat_model_report.md` still yields `completed`, with `threat_model_path`
populated. -/
theorem spec_c2_witness :
    (¬ (1 : Int) = 0) ∧ (["threat_model_report.md"] : List String) ≠ []
      ∧ processJobFinal false (some 1) "Warning: output limit" ["threat_model_report.md"]
            "/reports/j1"
          = JobFinal.completed (none, some "/reports/j1/threat_model_report.md", none) := by
  refine ⟨by decide, by decide, ?_⟩
  have h := spec_c2 1 "Warning: output limit" ["threat_model_report.md"] "/reports/j1"
    (by decide) (by decide)
  rw [h]
  decide

/-- Claim C6: a harvest that finds zero files fails the job; with a recorded
non-zero exit code the failure message carries the exit code and the
trailing excerpt (the last up-to-three error-looking lines) of the captured
output, while with exit code zero the simpler "no reports generated by the
agent" message is used. -/
theorem spec_c6 (c : Int) (capturedOutput jobReportDir : String) (hc : ¬ c = 0) :
    processJobFinal false (some c) capturedOutput [] jobReportDir
        = JobFinal.failed (noReportsMessage (some c) capturedOutput)
      ∧ strContains (noReportsMessage (some c) capturedOutput)
          ("agent-run exited with code " ++ toString c)
      ∧ (errorLinesOf capturedOutput ≠ [] →
          strContains (noReportsMessage (some c) capturedOutput)
            (String.intercalate "; " (takeLast 3 (errorLinesOf capturedOutput))))
      ∧ processJobFinal false (some 0) capturedOutput [] jobReportDir
          = JobFinal.failed "No threat modeling report files were generated by the agent" := by
  refine ⟨?_, ?_, ?_, ?_⟩
  · simp [processJobFinal, jobPipeline]
  · simp only [noReportsMessage]
    rw [if_neg hc]
    by_cases h : 0 < (errorLinesOf capturedOutput).length
    · rw [if_pos h]
      exact ⟨("No threat modeling report files were generated. ").data,
        (". Error details: " ++
          String.intercalate "; " (takeLast 3 (errorLinesOf capturedOutput))).data,
        by simp [String.data_append, List.append_assoc]⟩
    · rw [if_neg h]
      exact ⟨("No threat modeling report files were generated. ").data, [],
        by simp [String.data_append]⟩
  · intro hne
    have h : 0 < (errorLinesOf capturedOutput).length := List.length_pos.mpr hne
    simp only [noReportsMessage]
    rw [if_neg hc, if_pos h]
    exact ⟨("No threat modeling report files were generated. " ++
        ("agent-run exited with code " ++ toString c) ++ ". Error details: ").data, [],
      by simp [String.data_append, List.append_assoc]⟩
  · simp [processJobFinal, jobPipeline, noReportsMessage]

/-- Witness for C6: exit code 2 with one error-looking line, and exit code
0, both with an empty harvest. -/
theorem spec_c6_witness :
    (¬ (2 : Int) = 0)
      ∧ errorLinesOf "Error: token limit exceeded\nall done" ≠ []
      ∧ (processJobFinal false (some 2) "Error: token limit exceeded\nall done" [] "/reports/j3"
            = JobFinal.failed
                (noReportsMessage (some 2) "Error: token limit exceeded\nall done")
          ∧ strContains (noReportsMessage (some 2) "Error: token limit exceeded\nall done")
              ("agent-run exited with code " ++ toString (2 : Int))
          ∧ (errorLinesOf "Error: token limit exceeded\nall done" ≠ [] →
              strContains (noReportsMessage (some 2) "Error: token limit exceeded\nall done")
                (String.intercalate "; "
                  (takeLast 3 (errorLinesOf "Error: token limit exceeded\nall done"))))
          ∧ processJobFinal false (some 0) "Error: token limit exceeded\nall done" [] "/reports/j3"
              = JobFinal.failed
                  "No threat modeling report files were generated by the agent") := by
  refine ⟨by decide, by decide, ?_⟩
  exact spec_c6 2 "Error: token limit exceeded\nall done" "/reports/j3" (by decide)

/-- Claim C10: the harvest includes a file exactly when its lower-cased name
matches one of the three keyword families, and the classification cascade
assigns each included file to exactly one category with fixed precedence
(data-flow, then threat-model, then risk-registry), so a name matching two
families only populates the higher-precedence field. -/
theorem spec_c10 (files : List String) (f : String) (jobReportDir : String)
    (acc : Option String × Option String × Option String) :
    (f ∈ reportFilesOf files
        ↔ f ∈ files ∧ (isDataFlow f || isThreatModel f || isRiskRegistry f) = true)
      ∧ (isDataFlow f = true →
          classifyStep jobReportDir acc f = (some (pathJoin jobReportDir f), acc.2.1, acc.2.2))
      ∧ (isDataFlow f = false → isThreatModel f = true →
          classifyStep jobReportDir acc f = (acc.1, some (pathJoin jobReportDir f), acc.2.2))
      ∧ (isDataFlow f = false → isThreatModel f = false → isRiskRegistry f = true →
          classifyStep jobReportDir acc f = (acc.1, acc.2.1, some (pathJoin jobReportDir f))) := by
  refine ⟨?_, ?_, ?_, ?_⟩
  · simp [reportFilesOf, List.mem_filter]
  · intro h
    simp [classifyStep, h]
  · intro h1 h2
    simp [classifyStep, h1, h2]
  · intro h1 h2 h3
    simp [classifyStep, h1, h2, h3]

/-- Witness for C10: a filename matching both the data-flow and the
threat-model families populates only the data-flow field. -/
theorem spec_c10_witness :
    isDataFlow "data_flow_threat_model.md" = true
      ∧ isThreatModel "data_flow_threat_model.md" = true
      ∧ classifyStep "/reports/j2" (none, none, none) "data_flow_threat_model.md"
          = (some (pathJoin "/reports/j2" "data_flow_threat_model.md"), none, none) := by
  refine ⟨by decide, by decide, ?_⟩
  exact (spec_c10 [] "data_flow_threat_model.md" "/reports/j2" (none, none, none)).2.1 (by decide)

theorem applyOp_terminal_inv (t : Nat) (r : JobRecord) (op : ControllerOp)
    (h : isTerminalOp op = true) : recordInv (applyOp t r op) := by
  cases op <;>
    simp [applyOp, updateStatus, updateReports, updateErrorMessage, mkStatusOnly,
      recordInv, isTerminalOp] at h ⊢

theorem runOps_allTerminal (l : List ControllerOp) :
    l.all isTerminalOp = true → ∀ t r, recordInv r → recordInv (runOps t r l) := by
  induction l with
  | nil => exact fun _ t r hr => hr
  | cons op rest ih =>
    intro h t r hr
    rw [List.all_cons, Bool.and_eq_true] at h
    exact ih h.2 (t + 1) _ (applyOp_terminal_inv t r op h.1)

theorem runOps_traceOK (l : List ControllerOp) :
    traceOK l = true → ∀ t r, r.completed_at = none →
      (r.status = JobStatus.pending ∨ r.status = JobStatus.processing) →
      recordInv (runOps t r l) := by
  induction l with
  | nil =>
    intro _ t r h1 h2
    simp only [runOps, recordInv, h1]
    rcases h2 with h | h <;> simp [h]
  | cons op rest ih =>
    intro h t r h1 h2
    simp only [traceOK] at h
    by_cases hterm : isTerminalOp op = true
    · rw [if_pos hterm] at h
      exact runOps_allTerminal rest h (t + 1) _ (applyOp_terminal_inv t r op hterm)
    · have hop : op = ControllerOp.setProcessing := by
        cases op <;> simp [isTerminalOp] at hterm ⊢
      subst hop
      rw [if_neg hterm] at h
      apply ih h (t + 1)
      · simp [applyOp, updateStatus, mkStatusOnly, h1]
      · right
        simp [applyOp, updateStatus, mkStatusOnly]

/-- Claim C8: along every call sequence the Job Lifecycle Controller can
issue against a freshly created job record, `completed_at` is non-null
exactly when the status is `completed` or `failed` (and hence null while it
is `pending` or `processing`). -/
theorem spec_c8 (l : List ControllerOp) (t : Nat) (h : traceOK l = true) :
    (runOps t createRecord l).completed_at.isSome = true
      ↔ ((runOps t createRecord l).status = JobStatus.completed
          ∨ (runOps t createRecord l).status = JobStatus.failed) :=
  runOps_traceOK l h t createRecord rfl (Or.inl rfl)

/-- Witness for C8: the normal lifecycle `processing` then
`updateReports`-completed. -/
theorem spec_c8_witness :
    traceOK [ControllerOp.setProcessing,
        ControllerOp.reportsCompleted none (some "/r/t.md") none] = true
      ∧ ((runOps 0 createRecord [ControllerOp.setProcessing,
            ControllerOp.reportsCompleted none (some "/r/t.md") none]).completed_at.isSome = true
          ↔ ((runOps 0 createRecord [ControllerOp.setProcessing,
                ControllerOp.reportsCompleted none (some "/r/t.md") none]).status
                  = JobStatus.completed
              ∨ (runOps 0 createRecord [ControllerOp.setProcessing,
                  ControllerOp.reportsCompleted none (some "/r/t.md") none]).status
                    = JobStatus.failed)) := by
  refine ⟨by decide, ?_⟩
  exact spec_c8 [ControllerOp.setProcessing,
    ControllerOp.reportsCompleted none (some "/r/t.md") none] 0 (by decide)

/-- Claim C5: for an error thrown during asynchronous execution, the catch
block leaves the persisted record untouched when the cancellation signal
has already been triggered, and otherwise persists status `failed` with the
error message (and a completion timestamp). -/
theorem spec_c5 (msg : String) (r : JobRecord) (t : Nat) :
    catchHandler true msg r t = r
      ∧ (catchHandler false msg r t).status = JobStatus.failed
      ∧ (catchHandler false msg r t).error_message = some msg
      ∧ (catchHandler false msg r t).completed_at = some t := by
  refine ⟨rfl, ?_, ?_, ?_⟩ <;>
    simp [catchHandler, updateErrorMessage, updateStatus, mkStatusOnly]

theorem eq_singleton_of_mem_of_len_le_one (l : List Nat) (x : Nat)
    (hlen : l.length ≤ 1) (hx : x ∈ l) : l = [x] := by
  match l with
  | [] => cases hx
  | [a] =>
    rw [List.mem_singleton] at hx
    rw [hx]
  | a :: b :: t => simp at hlen

theorem mstep_inv (s : MutexState) (e : MutexEvent)
    (hv : mvalid s e = true) (hs : mutexInv s) : mutexInv (mstep s e) := by
  obtain ⟨h1, h2, h3, h4⟩ := hs
  cases e with
  | acquire id =>
    by_cases hl : s.locked = true
    · refine ⟨by simpa [mstep, hl] using h1, ?_, ?_, ?_⟩
      · intro hfalse
        rw [mstep] at hfalse ⊢
        simp [hl] at hfalse
      · intro _
        simpa [mstep, hl] using h3 hl
      · simp only [mstep, hl, if_true]
        rw [← List.append_assoc, h4]
    · have hl0 : s.locked = false := by simpa using hl
      obtain ⟨hh, hq⟩ := h2 hl0
      refine ⟨?_, ?_, ?_, ?_⟩
      · simp [mstep, hl0, hh]
      · intro hfalse
        simp [mstep, hl0] at hfalse
      · intro _
        simp [mstep, hl0, hh]
      · simp only [mstep, hl0, if_false, Bool.false_eq_true]
        rw [hq] at h4 ⊢
        rw [List.append_nil] at h4
        rw [List.append_nil, h4]
  | release id =>
    have hmem : id ∈ s.holders := of_decide_eq_true hv
    have hl : s.locked = true := by
      by_contra hcon
      have hl0 : s.locked = false := by simpa using hcon
      obtain ⟨hh, _⟩ := h2 hl0
      rw [hh] at hmem
      cases hmem
    have hone : s.holders = [id] :=
      eq_singleton_of_mem_of_len_le_one s.holders id h1 hmem
    cases hq : s.queue with
    | nil =>
      refine ⟨?_, ?_, ?_, ?_⟩
      · simp [mstep, hq, hone]
      · intro _
        simp [mstep, hq, hone]
      · intro habs
        simp [mstep, hq] at habs
      · simp only [mstep, hq]
        rw [hq] at h4
        simpa using h4
    | cons w ws =>
      refine ⟨?_, ?_, ?_, ?_⟩
      · simp [mstep, hq, hone]
      · intro habs
        simp [mstep, hq] at habs
      · intro _
        simp [mstep, hq, hone]
      · simp only [mstep, hq]
        rw [hq] at h4
        simp only [List.append_assoc, List.singleton_append]
        exact h4

theorem mrun_inv (tr : List MutexEvent) :
    ∀ s, mutexInv s → mvalidTrace s tr = true → mutexInv (mrun s tr) := by
  induction tr with
  | nil => exact fun s hs _ => hs
  | cons e es ih =>
    intro s hs hv
    rw [mvalidTrace, Bool.and_eq_true] at hv
    exact ih (mstep s e) (mstep_inv s e hv.1 hs) hv.2

/-- Claim C1: in every legal interleaving of `acquire()` calls and release
callback invocations of `ChdirMutex` (a release callback only ever invoked
by a current holder), at most one caller holds the lock at any instant, and
the lock is granted in FIFO arrival order: at every instant the grant log
followed by the still-waiting queue is exactly the arrival log. -/
theorem spec_c1 (tr : List MutexEvent) (h : mvalidTrace MutexState.init tr = true) :
    (mrun MutexState.init tr).holders.length ≤ 1
      ∧ (mrun MutexState.init tr).grantLog ++ (mrun MutexState.init tr).queue
          = (mrun MutexState.init tr).arrivalLog := by
  have hinv0 : mutexInv MutexState.init := by
    unfold mutexInv
    refine ⟨?_, ?_, ?_, ?_⟩ <;> simp [MutexState.init]
  have hinv := mrun_inv tr MutexState.init hinv0 h
  exact ⟨hinv.1, hinv.2.2.2⟩

/-- Witness for C1: three overlapping jobs; the lock is granted 0, 1, 2 in
arrival order and never held twice at once. -/
theorem spec_c1_witness :
    mvalidTrace MutexState.init
        [MutexEvent.acquire 0, MutexEvent.acquire 1, MutexEvent.acquire 2,
          MutexEvent.release 0, MutexEvent.release 1, MutexEvent.release 2] = true
      ∧ ((mrun MutexState.init
            [MutexEvent.acquire 0, MutexEvent.acquire 1, MutexEvent.acquire 2,
              MutexEvent.release 0, MutexEvent.release 1, MutexEvent.release 2]).holders.length ≤ 1
          ∧ (mrun MutexState.init
              [MutexEvent.acquire 0, MutexEvent.acquire 1, MutexEvent.acquire 2,
                MutexEvent.release 0, MutexEvent.release 1, MutexEvent.release 2]).grantLog
              ++ (mrun MutexState.init
                  [MutexEvent.acquire 0, MutexEvent.acquire 1, MutexEvent.acquire 2,
                    MutexEvent.release 0, MutexEvent.release 1, MutexEvent.release 2]).queue
            = (mrun MutexState.init
                [MutexEvent.acquire 0, MutexEvent.acquire 1, MutexEvent.acquire 2,
                  MutexEvent.release 0, MutexEvent.release 1, MutexEvent.release 2]).arrivalLog) := by
  refine ⟨by decide, ?_⟩
  exact spec_c1
    [MutexEvent.acquire 0, MutexEvent.acquire 1, MutexEvent.acquire 2,
      MutexEvent.release 0, MutexEvent.release 1, MutexEvent.release 2] (by decide)

/-- Claim C3: on every termination path of `processThreatModelingJob`
(normal completion, thrown error, or cancellation) the `finally` phase runs:
the job's entry is removed from the `runningJobs` map, removal of the work
directory, the uploaded ZIP and the extraction directory is attempted
(whenever the resource was passed and exists), and a failing removal is
swallowed — the body's outcome always passes through unchanged. -/
theorem spec_c3 (jobId : String) (zipPath extrPath : Option String)
    (f : CleanupFaults) (body : Except String Unit) (s : OrchState) :
    (runWithFinally jobId zipPath extrPath f body s).1 = body
      ∧ (runWithFinally jobId zipPath extrPath f body s).2.running jobId = false
      ∧ (s.workDirExists = true →
          (runWithFinally jobId zipPath extrPath f body s).2.workAttempted = true)
      ∧ (zipPath.isSome = true → s.zipExists = true →
          (runWithFinally jobId zipPath extrPath f body s).2.zipAttempted = true)
      ∧ (extrPath.isSome = true → s.extractedExists = true →
          (runWithFinally jobId zipPath extrPath f body s).2.extrAttempted = true) := by
  obtain ⟨run, wd, ze, ee, wa, za, ea⟩ := s
  obtain ⟨fw, fz, fe⟩ := f
  cases zipPath <;> cases extrPath <;> cases wd <;> cases ze <;> cases ee <;>
    cases fw <;> cases fz <;> cases fe <;>
      simp [runWithFinally, finallyPhase, cleanupExtracted, cleanupZip, cleanupWork,
        deleteRunning, rmAttempt]

/-- Witness for C3: a job whose body threw, with every cleanup failing —
the entry still leaves the map, all three removals are attempted, and the
body's error is what propagates. -/
theorem spec_c3_witness :
    sampleOrchState.workDirExists = true
      ∧ sampleOrchState.zipExists = true
      ∧ sampleOrchState.extractedExists = true
      ∧ (runWithFinally "j1" (some "/u/z.zip") (some "/u/e") ⟨true, true, true⟩
            (Except.error "boom") sampleOrchState).1 = Except.error "boom"
      ∧ (runWithFinally "j1" (some "/u/z.zip") (some "/u/e") ⟨true, true, true⟩
            (Except.error "boom") sampleOrchState).2.running "j1" = false
      ∧ (runWithFinally "j1" (some "/u/z.zip") (some "/u/e") ⟨true, true, true⟩
            (Except.error "boom") sampleOrchState).2.workAttempted = true
      ∧ (runWithFinally "j1" (some "/u/z.zip") (some "/u/e") ⟨true, true, true⟩
            (Except.error "boom") sampleOrchState).2.zipAttempted = true
      ∧ (runWithFinally "j1" (some "/u/z.zip") (some "/u/e") ⟨true, true, true⟩
            (Except.error "boom") sampleOrchState).2.extrAttempted = true := by
  have h := spec_c3 "j1" (some "/u/z.zip") (some "/u/e") ⟨true, true, true⟩
    (Except.error "boom") sampleOrchState
  exact ⟨rfl, rfl, rfl, h.1, h.2.1, h.2.2.1 rfl, h.2.2.2.1 rfl rfl, h.2.2.2.2 rfl rfl⟩

theorem detectRepoNameFrom_sound (zipFileName pkgName : Option String) (basename : String)
    (hz : ∀ z, zipFileName = some z → z.data ≠ [] ∧ (stripZipExt z).data ≠ [])
    (hp : ∀ n, pkgName = some n → n.data ≠ [])
    (hb : basename.data ≠ []) :
    (detectRepoNameFrom zipFileName pkgName basename).data ≠ []
      ∧ detectRepoNameFrom zipFileName pkgName basename
          = claimedDetectChain zipFileName pkgName basename := by
  cases zipFileName with
  | some z =>
    obtain ⟨hz1, hz2⟩ := hz z rfl
    simp [detectRepoNameFrom, claimedDetectChain, jsStr, hz1, hz2]
  | none =>
    cases pkgName with
    | some n =>
      have hn := hp n rfl
      simp [detectRepoNameFrom, claimedDetectChain, jsStr, hn]
    | none =>
      simp [detectRepoNameFrom, claimedDetectChain, jsStr]
      exact hb

/-- Claim C7 counterexample: an upload whose archive is `myapp.zip` but
whose extraction holds the single root directory `inner` gets workspace
subdirectory `inner` from the code, while the claimed priority order
(archive filename first) demands `myapp`. -/
theorem spec_c7_counterexample :
    chooseRepoName true true [("inner", true)] none "extracted-u1" (some "myapp.zip") = "inner"
      ∧ claimedRepoNameC7 (some "myapp.zip") none (some "extracted-u1") = "myapp"
      ∧ ("inner" : String) ≠ "myapp" := by
  refine ⟨by decide, by decide, by decide⟩

/-- Claim C7 as amended: under non-degenerate names (the archive filename,
manifest name and single-entry name are non-empty, and stripping `.zip`
does not empty the archive name), the code's choice follows the priority:
single top-level extraction directory first; else, for uploads, archive
filename stripped, else manifest name, else the extraction directory's
basename; without an upload, archive filename stripped, else `'repo'`. -/
theorem spec_c7_amended (uploaded extractedExists : Bool) (contents : List (String × Bool))
    (pkgName : Option String) (extractedBasename : String) (zipFileName : Option String)
    (hz : ∀ z, zipFileName = some z → z.data ≠ [] ∧ (stripZipExt z).data ≠ [])
    (hp : ∀ n, pkgName = some n → n.data ≠ [])
    (hb : extractedBasename.data ≠ [])
    (hc : ∀ name isDir, contents = [(name, isDir)] → name.data ≠ []) :
    chooseRepoName uploaded extractedExists contents pkgName extractedBasename zipFileName
      = repoNamePriorityAmended uploaded extractedExists contents pkgName
          extractedBasename zipFileName := by
  obtain ⟨hdne, hdeq⟩ := detectRepoNameFrom_sound zipFileName pkgName extractedBasename hz hp hb
  unfold chooseRepoName repoNamePriorityAmended
  cases hu : uploaded && extractedExists with
  | false =>
    cases zipFileName with
    | none => simp [jsStr]
    | some z =>
      obtain ⟨hz1, _⟩ := hz z rfl
      simp [jsStr, hz1]
  | true =>
    cases contents with
    | nil =>
      simp [jsStr, hdne]
      rw [hdeq]
    | cons p rest =>
      obtain ⟨name, isDir⟩ := p
      cases rest with
      | nil =>
        cases isDir with
        | true =>
          have hn := hc name true rfl
          simp [jsStr, hn]
        | false =>
          simp [jsStr, hdne]
          rw [hdeq]
      | cons q rrest =>
        simp [jsStr, hdne]
        rw [hdeq]

/-- Witness for the amended C7 statement at the counterexample's inputs. -/
theorem spec_c7_witness :
    chooseRepoName true true [("inner", true)] none "extracted-u1" (some "myapp.zip")
      = repoNamePriorityAmended true true [("inner", true)] none "extracted-u1"
          (some "myapp.zip") := by
  apply spec_c7_amended
  · intro z hzz
    injection hzz with h
    subst h
    exact ⟨by decide, by decide⟩
  · intro n hn
    cases hn
  · decide
  · intro name isDir h
    have h1 : ("inner", true) = (name, isDir) := (List.cons.inj h).1
    have h2 : "inner" = name := congrArg Prod.fst h1
    subst h2
    decide
